import Mathlib

/-!
Verification of the authenticated transport substrate of the `dingtalk-sdk-rust`
client library: the access-token cache, the webhook signing algorithm
(HMAC-SHA256, base64- and percent-encoded), the error-classification pipeline
(`error.rs`), the redaction/truncation helpers (`util/redact.rs`) and the URL
normalization and webhook-URL construction (`util/url.rs`, `transport/mod.rs`).

Modelling conventions:
* Rust strings that are manipulated by byte index (`redact.rs`, response
  bodies) are modelled as `List Nat` of UTF-8 byte values; strings that are
  only concatenated are modelled as Lean `String`.
* Machine integers are modelled as `Nat`/`Int`, with `% 2 ^ 32` where 32-bit
  wrapping matters (SHA-256 words).
* A Rust panic is modelled as `Option.none` (`replace_range` on a non-boundary
  index panics in Rust).
* External collaborator crates are modelled as follows: the `hmac`/`sha2`/
  `base64`/`urlencoding` crates are implemented in full (they are deterministic
  byte transformations); `serde_json` deserialization and `url`-crate parsing
  are passed in as explicit oracle functions, since the repository code only
  consumes their results; the `url` crate's serializer (query-pair appending
  with form-urlencoding, path-segment pushing with percent-encoding) is
  implemented in full; the `reqx` HTTP client's error type is modelled as a
  record with its error-code enumeration (plus a catch-all constructor for its
  remaining codes, which the source maps through a wildcard arm).
* Clock reads (`Instant::now`, `current_timestamp_millis`) are passed as
  explicit parameters.
-/

/-! ## UTF-8 byte-level utilities -/

/-- UTF-8 encoding of a single character, as the list of its byte values.
This is the standard UTF-8 encoding; Rust `String`s are sequences of these
bytes. -/
def utf8EncodeCharM (c : Char) : List Nat :=
  let v := c.toNat
  if v < 128 then [v]
  else if v < 2048 then [192 + v / 64, 128 + v % 64]
  else if v < 65536 then [224 + v / 4096, 128 + v / 64 % 64, 128 + v % 64]
  else [240 + v / 262144, 128 + v / 4096 % 64, 128 + v / 64 % 64, 128 + v % 64]

/-- The UTF-8 bytes of a string (the Rust `str::as_bytes` view). -/
def strBytes (s : String) : List Nat := s.data.flatMap utf8EncodeCharM

/-- UTF-8 decoding loop: one byte per step, carrying the code-point bits
collected so far (`acc`) and the number of continuation bytes still expected
(`need`, at most 3). A lead byte opens a sequence, the final continuation
byte emits the character; stray or truncated sequences are dropped. On the
encoding of a valid string this is the exact inverse of encoding. -/
def utf8DecodeLoop : List Nat → Nat → Nat → List Char
  | [], _, _ => []
  | b :: rest, _, 0 =>
    if b < 128 then Char.ofNat b :: utf8DecodeLoop rest 0 0
    else if b < 192 then utf8DecodeLoop rest 0 0
    else if b < 224 then utf8DecodeLoop rest (b - 192) 1
    else if b < 240 then utf8DecodeLoop rest (b - 224) 2
    else utf8DecodeLoop rest (b - 240) 3
  | b :: rest, acc, 1 => Char.ofNat (acc * 64 + (b - 128)) :: utf8DecodeLoop rest 0 0
  | b :: rest, acc, 2 => utf8DecodeLoop rest (acc * 64 + (b - 128)) 1
  | b :: rest, acc, 3 => utf8DecodeLoop rest (acc * 64 + (b - 128)) 2
  | _ :: rest, _, _ + 4 => utf8DecodeLoop rest 0 0

/-- UTF-8 decoding of a byte list back to characters. -/
def utf8DecodeChars (l : List Nat) : List Char := utf8DecodeLoop l 0 0

/-- Upper-case hexadecimal digit for a value below 16. -/
def hexUpperDigit (n : Nat) : Char := if n < 10 then Char.ofNat (48 + n) else Char.ofNat (55 + n)

/-- Percent-encoding of one byte: `%XY` with upper-case hex digits. -/
def pctEncodeByte (b : Nat) : List Char := ['%', hexUpperDigit (b / 16), hexUpperDigit (b % 16)]

/-- Value of a hexadecimal digit character (0 for non-hex characters). -/
def hexVal (c : Char) : Nat :=
  if c.isDigit then c.toNat - 48
  else if 65 ≤ c.toNat ∧ c.toNat ≤ 70 then c.toNat - 55
  else if 97 ≤ c.toNat ∧ c.toNat ≤ 102 then c.toNat - 87
  else 0

/-! ## SHA-256 / HMAC (model of the `sha2` and `hmac` crates)

32-bit words are `Nat` values kept below `2 ^ 32` by explicit reduction. -/

/-- Reduce a natural number to a 32-bit word. -/
def w32 (n : Nat) : Nat := n % 4294967296

/-- Right rotation of a 32-bit word by `n` places. -/
def rotr32 (x n : Nat) : Nat := x / 2 ^ n + x % 2 ^ n * 2 ^ (32 - n)

/-- SHA-256 choice function `Ch`; `4294967295 - x` is 32-bit complement. -/
def shaCh (x y z : Nat) : Nat := (x &&& y) ^^^ ((4294967295 - x) &&& z)

/-- SHA-256 majority function `Maj`. -/
def shaMaj (x y z : Nat) : Nat := (x &&& y) ^^^ (x &&& z) ^^^ (y &&& z)

/-- SHA-256 big sigma 0. -/
def bsig0 (x : Nat) : Nat := rotr32 x 2 ^^^ rotr32 x 13 ^^^ rotr32 x 22

/-- SHA-256 big sigma 1. -/
def bsig1 (x : Nat) : Nat := rotr32 x 6 ^^^ rotr32 x 11 ^^^ rotr32 x 25

/-- SHA-256 small sigma 0. -/
def ssig0 (x : Nat) : Nat := rotr32 x 7 ^^^ rotr32 x 18 ^^^ (x / 2 ^ 3)

/-- SHA-256 small sigma 1. -/
def ssig1 (x : Nat) : Nat := rotr32 x 17 ^^^ rotr32 x 19 ^^^ (x / 2 ^ 10)

/-- The 64 SHA-256 round constants. -/
def sha256K : List Nat :=
  [1116352408, 1899447441, 3049323471, 3921009573, 961987163,
   1508970993, 2453635748, 2870763221, 3624381080, 310598401,
   607225278, 1426881987, 1925078388, 2162078206, 2614888103,
   3248222580, 3835390401, 4022224774, 264347078, 604807628,
   770255983, 1249150122, 1555081692, 1996064986, 2554220882,
   2821834349, 2952996808, 3210313671, 3336571891, 3584528711,
   113926993, 338241895, 666307205, 773529912, 1294757372,
   1396182291, 1695183700, 1986661051, 2177026350, 2456956037,
   2730485921, 2820302411, 3259730800, 3345764771, 3516065817,
   3600352804, 4094571909, 275423344, 430227734, 506948616,
   659060556, 883997877, 958139571, 1322822218, 1537002063,
   1747873779, 1955562222, 2024104815, 2227730452, 2361852424,
   2428436474, 2756734187, 3204031479, 3329325298]

/-- The eight SHA-256 initial hash words. -/
def sha256IV : List Nat :=
  [1779033703, 3144134277, 1013904242, 2773480762,
   1359893119, 2600822924, 528734635, 1541459225]

/-- Extend the 16-word message block by `n` further schedule words. -/
def sha256Extend : Nat → List Nat → List Nat
  | 0, w => w
  | n + 1, w =>
    let k := w.length
    sha256Extend n
      (w ++ [w32 (ssig1 (w.getD (k - 2) 0) + w.getD (k - 7) 0 +
        ssig0 (w.getD (k - 15) 0) + w.getD (k - 16) 0)])

/-- One SHA-256 round: update the 8-word working state with a
(round-constant, schedule-word) pair. -/
def sha256Round (st : List Nat) (kw : Nat × Nat) : List Nat :=
  match st with
  | [a, b, c, d, e, f, g, h] =>
    let t1 := w32 (h + bsig1 e + shaCh e f g + kw.1 + kw.2)
    let t2 := w32 (bsig0 a + shaMaj a b c)
    [w32 (t1 + t2), a, b, c, w32 (d + t1), e, f, g]
  | other => other

/-- Compress one 16-word block into the running 8-word state. -/
def sha256Compress (st : List Nat) (block : List Nat) : List Nat :=
  let w := sha256Extend 48 block
  let final := (sha256K.zip w).foldl sha256Round st
  (st.zip final).map fun p => w32 (p.1 + p.2)

/-- Group bytes into big-endian 32-bit words. -/
def toWordsBE : List Nat → List Nat
  | b0 :: b1 :: b2 :: b3 :: rest =>
    (((b0 * 256 + b1) * 256 + b2) * 256 + b3) :: toWordsBE rest
  | _ => []

/-- Split a word list into 16-word blocks (the input length is always a
multiple of 16 after padding). -/
def chunks16 : List Nat → List (List Nat)
  | w0 :: w1 :: w2 :: w3 :: w4 :: w5 :: w6 :: w7 ::
      w8 :: w9 :: w10 :: w11 :: w12 :: w13 :: w14 :: w15 :: rest =>
    [w0, w1, w2, w3, w4, w5, w6, w7, w8, w9, w10, w11, w12, w13, w14, w15] :: chunks16 rest
  | [] => []
  | l => [l]

/-- Big-endian 8-byte serialization of a length value. -/
def be64 (n : Nat) : List Nat :=
  [n / 2 ^ 56 % 256, n / 2 ^ 48 % 256, n / 2 ^ 40 % 256, n / 2 ^ 32 % 256,
   n / 2 ^ 24 % 256, n / 2 ^ 16 % 256, n / 2 ^ 8 % 256, n % 256]

/-- SHA-256 of a byte list (FIPS 180-4): pad with `0x80`, zeros and the
64-bit big-endian bit length, then compress block by block. -/
def sha256 (msg : List Nat) : List Nat :=
  let padded := msg ++ 128 ::
    (List.replicate ((120 - (msg.length + 1) % 64) % 64) 0 ++ be64 (msg.length * 8))
  let st := (chunks16 (toWordsBE padded)).foldl sha256Compress sha256IV
  st.flatMap fun word => [word / 2 ^ 24 % 256, word / 2 ^ 16 % 256, word / 2 ^ 8 % 256, word % 256]

/-- HMAC-SHA256 (FIPS 198-1) of `msg` keyed by `key`: long keys are hashed,
short keys zero-padded to the 64-byte block, then the nested
opad/ipad construction is applied. Accepts keys of any length, so the
`Hmac::new_from_slice` call in the source never fails. -/
def hmac_sha256 (key msg : List Nat) : List Nat :=
  let key1 := if 64 < key.length then sha256 key else key
  let key0 := key1 ++ List.replicate (64 - key1.length) 0
  sha256 ((key0.map fun b => b ^^^ 92) ++ sha256 ((key0.map fun b => b ^^^ 54) ++ msg))

/-- The standard base64 alphabet (model of `base64::engine::general_purpose::STANDARD`). -/
def base64Alphabet : List Char :=
  "ABCDEFGHIJKLMNOPQRSTUVWXYZabcdefghijklmnopqrstuvwxyz0123456789+/".data

/-- Standard base64 encoding with `=` padding. -/
def base64Encode : List Nat → List Char
  | b0 :: b1 :: b2 :: rest =>
    base64Alphabet.getD (b0 / 4) 'A' :: base64Alphabet.getD (b0 % 4 * 16 + b1 / 16) 'A' ::
      base64Alphabet.getD (b1 % 16 * 4 + b2 / 64) 'A' :: base64Alphabet.getD (b2 % 64) 'A' ::
      base64Encode rest
  | [b0, b1] =>
    [base64Alphabet.getD (b0 / 4) 'A', base64Alphabet.getD (b0 % 4 * 16 + b1 / 16) 'A',
     base64Alphabet.getD (b1 % 16 * 4) 'A', '=']
  | [b0] =>
    [base64Alphabet.getD (b0 / 4) 'A', base64Alphabet.getD (b0 % 4 * 16) 'A', '=', '=']
  | [] => []

/-- Characters the `urlencoding` crate leaves unencoded (its unreserved set). -/
def urlencSafe (c : Char) : Bool := c.isAlphanum || c = '-' || c = '_' || c = '.' || c = '~'

/-- Model of `urlencoding::encode`: percent-encode every UTF-8 byte of every
character outside the unreserved set, with upper-case hex digits. -/
def urlencodingEncode (s : String) : String :=
  String.mk (s.data.flatMap fun c =>
    if urlencSafe c then [c] else (utf8EncodeCharM c).flatMap pctEncodeByte)

/-! ## Error taxonomy (`error.rs`) -/

/-- Structured HTTP error context (`HttpError` in `error.rs`). Body snippets
are byte lists, durations are second counts. -/
structure HttpError where
  status : Nat
  message : Option String
  request_id : Option String
  body_snippet : Option (List Nat)
deriving DecidableEq, Repr

/-- Structured transport error context (`TransportError` in `error.rs`). -/
structure TransportError where
  status : Option Nat
  message : Option String
  request_id : Option String
  body_snippet : Option (List Nat)
  retry_after : Option Nat
  retryable : Bool
deriving DecidableEq, Repr

/-- Unified SDK error type (`Error` in `error.rs`). The `Serialization`,
`Timestamp` and `InvalidConfig` payloads are reduced to their message text
(the wrapped foreign error values carry no further observable structure
here). -/
inductive Error where
  | Api (code : Int) (message : String) (request_id : Option String)
      (body_snippet : Option (List Nat))
  | Auth (error : HttpError)
  | NotFound (error : HttpError)
  | Conflict (error : HttpError)
  | RateLimited (error : HttpError) (retry_after : Option Nat)
  | Transport (error : TransportError)
  | Serialization (message : String)
  | Timestamp (message : String)
  | Signature
  | InvalidConfig (message : String)
deriving DecidableEq, Repr

/-- Stable high-level error category (`ErrorKind` in `error.rs`). -/
inductive ErrorKind where
  | Auth | NotFound | Conflict | RateLimited | Api
  | Transport | Serialization | Timestamp | Signature | InvalidConfig
deriving DecidableEq, Repr

/-- `Error::kind` from `error.rs`. -/
def Error.kind : Error → ErrorKind
  | .Auth _ => .Auth
  | .NotFound _ => .NotFound
  | .Conflict _ => .Conflict
  | .RateLimited _ _ => .RateLimited
  | .Api _ _ _ _ => .Api
  | .Transport _ => .Transport
  | .Serialization _ => .Serialization
  | .Timestamp _ => .Timestamp
  | .Signature => .Signature
  | .InvalidConfig _ => .InvalidConfig

/-- `Error::is_retryable` from `error.rs`: rate limits are always retryable,
transport errors carry their own flag, API errors are retryable exactly for
the allow-listed business codes, everything else is not. -/
def Error.is_retryable : Error → Bool
  | .RateLimited _ _ => true
  | .Transport error => error.retryable
  | .Api code _ _ _ => code == 130101 || code == 130102
  | _ => false

/-- `Error::retry_after` from `error.rs`. -/
def Error.retry_after : Error → Option Nat
  | .RateLimited _ retry_after => retry_after
  | .Transport error => error.retry_after
  | _ => none

/-- Error-code enumeration of the external `reqx` HTTP client. The source
matches five named conditions and `HttpStatus`; every remaining `reqx` code
falls into the wildcard arm, modelled by `OtherCode`. -/
inductive ReqxErrorCode where
  | Timeout | DeadlineExceeded | Transport | RetryBudgetExhausted | CircuitOpen
  | HttpStatus | OtherCode
deriving DecidableEq, Repr

/-- Observable content of a `reqx::Error` value as consumed by
`From<reqx::Error> for Error`: its code, optional HTTP status, optional
request id, optional retry-after hint (seconds) and its display string. -/
structure ReqxError where
  code : ReqxErrorCode
  status_code : Option Nat
  request_id : Option String
  retry_after : Option Nat
  display : String
deriving DecidableEq, Repr

/-- The retryability flag computed in `From<reqx::Error> for Error`. -/
def reqx_retryable (source : ReqxError) : Bool :=
  match source.code with
  | .Timeout | .DeadlineExceeded | .Transport | .RetryBudgetExhausted | .CircuitOpen => true
  | .HttpStatus =>
    match source.status_code with
    | some s => s == 429 || (decide (500 ≤ s) && decide (s ≤ 599))
    | none => false
  | .OtherCode => false

/-- `From<reqx::Error> for Error`: classification of a transport failure by
its HTTP status, from `error.rs`. -/
def error_from_reqx (source : ReqxError) : Error :=
  let status := source.status_code
  let request_id := source.request_id
  let retry_after := source.retry_after
  let retryable := reqx_retryable source
  match status with
  | some s =>
    let error : HttpError :=
      { status := s, message := none, request_id := request_id, body_snippet := none }
    if s = 401 ∨ s = 403 then .Auth error
    else if s = 404 then .NotFound error
    else if s = 409 ∨ s = 412 then .Conflict error
    else if s = 429 then .RateLimited error retry_after
    else .Transport ⟨some s, some source.display, request_id, none, retry_after, retryable⟩
  | none => .Transport ⟨none, some source.display, request_id, none, retry_after, retryable⟩

/-! ## Access-token cache (`transport/mod.rs`) -/

/-- Conservative default token lifetime, seconds (`DEFAULT_ACCESS_TOKEN_TTL`). -/
def DEFAULT_ACCESS_TOKEN_TTL : Nat := 7200

/-- Minimum token lifetime floor, seconds (`MIN_ACCESS_TOKEN_TTL`). -/
def MIN_ACCESS_TOKEN_TTL : Nat := 30

/-- `normalize_token_ttl` from `transport/mod.rs`: a positive server-reported
lifetime is clamped up to the floor, anything else gets the default. -/
def normalize_token_ttl : Option Int → Nat
  | some value => if 0 < value then max value.toNat MIN_ACCESS_TOKEN_TTL
                  else DEFAULT_ACCESS_TOKEN_TTL
  | none => DEFAULT_ACCESS_TOKEN_TTL

/-- A cached token with its expiry instant (`CachedAccessToken`). Instants
are seconds on an abstract monotone clock. -/
structure CachedAccessToken where
  token : String
  expires_at : Nat
deriving DecidableEq, Repr

/-- The access-token cache (`AccessTokenCache`): the lock-protected slot
content plus the configured refresh margin, with the clock reads of `get` and
`store` made explicit parameters. -/
structure AccessTokenCache where
  inner : Option CachedAccessToken
  refresh_margin : Nat
deriving DecidableEq, Repr

/-- `AccessTokenCache::new`. -/
def AccessTokenCache.new (refresh_margin : Nat) : AccessTokenCache :=
  { inner := none, refresh_margin := refresh_margin }

/-- `AccessTokenCache::get`, with the `Instant::now()` read passed as `now`:
returns the token only while `now + refresh_margin < expires_at`. -/
def AccessTokenCache.get (cache : AccessTokenCache) (now : Nat) : Option String :=
  match cache.inner with
  | none => none
  | some cached =>
    if now + cache.refresh_margin < cached.expires_at then some cached.token else none

/-- `AccessTokenCache::store`, with the `Instant::now()` read passed as `now`:
replaces the slot with the token and `now + normalize_token_ttl expires_in`. -/
def AccessTokenCache.store (cache : AccessTokenCache) (now : Nat) (token : String)
    (expires_in_seconds : Option Int) : AccessTokenCache :=
  { cache with inner := some ⟨token, now + normalize_token_ttl expires_in_seconds⟩ }

/-! ## Redaction and truncation (`util/redact.rs`)

Rust `String`s are modelled as lists of UTF-8 byte values, since this module
works with byte indices. A Rust panic (from `replace_range` on an index that
is not a character boundary) is modelled as `none`. -/

/-- The fixed sensitive-key list (`SENSITIVE_KEYS`), as byte strings. -/
def SENSITIVE_KEYS : List (List Nat) :=
  [strBytes "token", strBytes "access_token", strBytes "appsecret",
   strBytes "authorization", strBytes "cookie", strBytes "passwd",
   strBytes "password", strBytes "secret"]

/-- The redaction marker `"=<redacted>"`, as bytes. -/
def redactMarker : List Nat := strBytes "=<redacted>"

/-- Rust `str::is_char_boundary` on a byte string: index 0 and the end are
boundaries, an interior index is one iff its byte is not a UTF-8
continuation byte, and an out-of-range index is not one. -/
def isCharBoundaryByte (s : List Nat) (i : Nat) : Bool :=
  if i = 0 then true
  else
    match s[i]? with
    | none => i == s.length
    | some b => decide (b < 128) || decide (192 ≤ b)

/-- Rust `str::find` for a literal pattern: byte index of the first
occurrence of `needle` in `haystack`. -/
def find_sub (haystack needle : List Nat) : Option Nat :=
  if needle.isPrefixOf haystack then some 0
  else
    match haystack with
    | [] => none
    | _ :: t => (find_sub t needle).map (· + 1)

/-- Rust `String::replace_range`: splice `repl` over `start..stop`; panics
(modelled as `none`) unless both ends are character boundaries in order. -/
def replace_range (s : List Nat) (start stop : Nat) (repl : List Nat) : Option (List Nat) :=
  if isCharBoundaryByte s start && isCharBoundaryByte s stop && decide (start ≤ stop) then
    some (s.take start ++ repl ++ s.drop stop)
  else none

/-- Lowercasing of one character as in Rust `str::to_lowercase`, restricted
to the fragment of the Unicode case table needed in this development: ASCII
letters map to their lowercase forms and U+0130 expands to the two-character
sequence `i` + combining dot above; every other character is left fixed.
The real function also lowercases many further non-ASCII characters (for
example U+212A to ASCII `k`), which this model does not cover; therefore
every theorem below that quantifies over redaction inputs restricts them to
ASCII bytes, where this model agrees with `str::to_lowercase` exactly, and
the concrete non-ASCII inputs evaluated below contain only the euro sign,
which lowercasing fixes. -/
def charLowercase (c : Char) : List Char :=
  if c.toNat = 304 then [Char.ofNat 105, Char.ofNat 775]
  else if 65 ≤ c.toNat ∧ c.toNat ≤ 90 then [Char.ofNat (c.toNat + 32)]
  else [c]

/-- Rust `str::to_lowercase` on a UTF-8 byte string: decode, lowercase each
character with `charLowercase`, re-encode. Exact for ASCII input and for the
concrete inputs evaluated below; see `charLowercase` for the modelled
fragment of the case table. -/
def rustToLowercase (s : List Nat) : List Nat :=
  ((utf8DecodeChars s).flatMap charLowercase).flatMap utf8EncodeCharM

/-- One iteration of the `redact_text` loop for a single sensitive key:
search the lowercased current text, then overwrite the 32-byte window that
follows the first occurrence (clipped to the end of the text) with the
marker. The search index is taken in the lowercased text but applied to the
original, and the window bounds are not checked against character
boundaries; `replace_range` panics (`none`) when they are not boundaries. -/
def redact_step (output : List Nat) (key : List Nat) : Option (List Nat) :=
  let lower := rustToLowercase output
  match find_sub lower key with
  | some index =>
    let start := index + key.length
    let stop := min (start + 32) output.length
    if start < stop then replace_range output start stop redactMarker
    else some output
  | none => some output

/-- `redact_text` from `util/redact.rs`: apply `redact_step` for each
sensitive key in order. `none` models a panic of the Rust function. -/
def redact_text (input : List Nat) : Option (List Nat) :=
  SENSITIVE_KEYS.foldlM redact_step input

/-- Largest index `≤ i` that is a character boundary of `s` (the
`while !input.is_char_boundary(end) { end -= 1 }` loop in `truncate_snippet`;
index 0 is always a boundary, so it terminates). -/
def prev_boundary (s : List Nat) : Nat → Nat
  | 0 => 0
  | i + 1 => if isCharBoundaryByte s (i + 1) then i + 1 else prev_boundary s i

/-- The truncation marker `"...(truncated)"`, as bytes. -/
def truncatedMarker : List Nat := strBytes "...(truncated)"

/-- `truncate_snippet` from `util/redact.rs`: return short inputs unchanged,
otherwise cut at the largest character boundary not above the byte budget and
append the truncation marker. -/
def truncate_snippet (input : List Nat) (max_bytes : Nat) : List Nat :=
  if input.length ≤ max_bytes then input
  else input.take (prev_boundary input max_bytes) ++ truncatedMarker

/-! ## Standard API response validation (`transport/mod.rs`) -/

/-- Configuration for attaching a redacted body snippet (`BodySnippetConfig`). -/
structure BodySnippetConfig where
  enabled : Bool
  max_bytes : Nat
deriving DecidableEq, Repr

/-- The default `BodySnippetConfig`: capture enabled, 4096-byte budget. -/
def BodySnippetConfig.default : BodySnippetConfig := { enabled := true, max_bytes := 4096 }

/-- The decoded `StandardApiResponse` envelope (`types/internal.rs`): both
fields optional. -/
structure StandardApiResponse where
  errcode : Option Int
  errmsg : Option String
deriving DecidableEq, Repr

/-- `api_error` from `transport/mod.rs`. -/
def api_error (code : Int) (message : String) (request_id : Option String)
    (body_snippet : Option (List Nat)) : Error :=
  .Api code message request_id body_snippet

/-- `body_snippet_for_error` from `transport/mod.rs`: `none` when capture is
disabled, otherwise the truncated body passed through `redact_text`. The
outer `Option` models a panic inside `redact_text`. -/
def body_snippet_for_error (body : List Nat) (config : BodySnippetConfig) :
    Option (Option (List Nat)) :=
  if !config.enabled then some none
  else (redact_text (truncate_snippet body config.max_bytes)).map some

/-- `validate_standard_api_response` from `transport/mod.rs`, with
`serde_json::from_str::<StandardApiResponse>` supplied as the oracle
`decode` (the JSON parser is an external collaborator; `decode body = none`
models a failed deserialization). A decodable body with a non-zero `errcode`
produces an `Api` error carrying the code, the `errmsg` (or the fixed default
message) and the captured snippet; everything else is success. The outer
`Option` models a panic inside the snippet redaction. -/
def validate_standard_api_response (decode : List Nat → Option StandardApiResponse)
    (body : List Nat) (config : BodySnippetConfig) : Option (Except Error Unit) :=
  match decode body with
  | some response =>
    match response.errcode with
    | some errcode =>
      if errcode ≠ 0 then
        (body_snippet_for_error body config).map fun snippet =>
          .error (api_error errcode (response.errmsg.getD "unknown dingtalk api error")
            none snippet)
      else some (.ok ())
    | none => some (.ok ())
  | none => some (.ok ())

/-! ## Webhook signature (`signature.rs`) -/

/-- `create_signature` from `signature.rs`: HMAC-SHA256 keyed by the secret
over the UTF-8 bytes of the timestamp, a newline and the secret, then
base64- and percent-encoded. The HMAC key setup accepts every key, so the
result is always `ok`. -/
def create_signature (timestamp secret : String) : Except Error String :=
  let string_to_sign := timestamp ++ "\n" ++ secret
  let signature := hmac_sha256 (strBytes secret) (strBytes string_to_sign)
  .ok (urlencodingEncode (String.mk (base64Encode signature)))

/-! ## URL model (`util/url.rs`, `transport/mod.rs`)

A hierarchical address of the `url` crate is modelled by its components. The
crate's parser is passed in as an oracle where needed; its serializer-side
operations (query-pair appending with form-urlencoding, path-segment pushing
with percent-encoding) are implemented in full. -/

/-- Observable components of a `url::Url` value. -/
structure Url where
  scheme : String
  host : String
  cannot_be_a_base : Bool
  path : String
  query : Option String
  fragment : Option String
deriving DecidableEq, Repr

/-- Characters the form-urlencoded serializer of the `url` crate leaves
literal: ASCII alphanumerics and `*`, `-`, `.`, `_`. -/
def formSafeChar (c : Char) : Bool :=
  c.isAlphanum || c = '*' || c = '-' || c = '.' || c = '_'

/-- Form-urlencoding of one character: space becomes `+`, safe characters
stay, everything else is percent-encoded byte by byte. -/
def formEncodeChar (c : Char) : List Char :=
  if c = ' ' then ['+']
  else if formSafeChar c then [c]
  else (utf8EncodeCharM c).flatMap pctEncodeByte

/-- Form-urlencoding of a string (the `query_pairs_mut().append_pair`
encoding of keys and values). -/
def formEncode (s : String) : String := String.mk (s.data.flatMap formEncodeChar)

/-- Byte-level decoding of a form-urlencoded string: `+` is a space, `%XY`
is a byte, every other character stands for its own code. -/
def pctDecodeBytes : List Char → List Nat
  | [] => []
  | c :: rest =>
    if c = '+' then 32 :: pctDecodeBytes rest
    else if c = '%' then
      match rest with
      | h :: l :: rest2 => (hexVal h * 16 + hexVal l) :: pctDecodeBytes rest2
      | _ => [37]
    else c.toNat :: pctDecodeBytes rest

/-- Split a character list at every occurrence of a separator. -/
def splitOnSep (sep : Char) : List Char → List (List Char)
  | [] => [[]]
  | c :: rest =>
    if c = sep then [] :: splitOnSep sep rest
    else
      match splitOnSep sep rest with
      | h :: t => (c :: h) :: t
      | [] => [[c]]

/-- Split one `key=value` component at its first `=` (a component without
`=` is all key). -/
def splitKV (kv : List Char) : List Char × List Char :=
  match splitOnSep '=' kv with
  | k :: vs => (k, List.intercalate ['='] vs)
  | [] => (kv, [])

/-- Decode a form-urlencoded component back to a string. -/
def formDecodeChars (l : List Char) : String := String.mk (utf8DecodeChars (pctDecodeBytes l))

/-- Re-parsing of a query string into decoded key/value pairs (the
`query_pairs()` view of the `url` crate). -/
def parseQueryPairs (q : String) : List (String × String) :=
  (splitOnSep '&' q.data).map fun kv =>
    ((formDecodeChars (splitKV kv).1), (formDecodeChars (splitKV kv).2))

/-- `query_pairs_mut().append_pair`: append one form-urlencoded pair to the
query string. -/
def Url.appendQueryPair (u : Url) (k v : String) : Url :=
  let pair := formEncode k ++ "=" ++ formEncode v
  { u with query := some (match u.query with | none => pair | some q => q ++ "&" ++ pair) }

/-- Characters a pushed path segment keeps literal in the `url` crate:
printable ASCII outside the path-segment encode set. -/
def pathSegmentSafe (c : Char) : Bool :=
  decide (32 < c.toNat) && decide (c.toNat < 127) &&
    !(c = '"' || c = '#' || c = '<' || c = '>' || c = '?' || c = '\x60' ||
      c = '\x7b' || c = '\x7d' || c = '/' || c = '%')

/-- Percent-encoding of one pushed path segment. -/
def encodeSegment (s : String) : String :=
  String.mk (s.data.flatMap fun c =>
    if pathSegmentSafe c then [c] else (utf8EncodeCharM c).flatMap pctEncodeByte)

/-- `endpoint_url` from `util/url.rs`: refuse non-hierarchical bases,
otherwise push each segment onto the base path with percent-encoding. -/
def endpoint_url (base_url : Url) (segments : List String) : Except Error Url :=
  if base_url.cannot_be_a_base then .error (.InvalidConfig "base_url must be hierarchical")
  else
    let newPath := (if base_url.path = "/" then "" else base_url.path) ++
      String.join (segments.map fun s => "/" ++ encodeSegment s)
    .ok { base_url with path := newPath }

/-- `build_webhook_url` from `transport/mod.rs`, with the
`current_timestamp_millis()` clock read passed as `now_millis`: build the
`robot/send` endpoint, append `access_token`, and — only when a secret is
configured — a millisecond timestamp and the signature over it. -/
def build_webhook_url (base_url : Url) (token : String) (secret : Option String)
    (now_millis : Nat) : Except Error Url := do
  let url ← endpoint_url base_url ["robot", "send"]
  let url := url.appendQueryPair "access_token" token
  match secret with
  | none => pure url
  | some sec => do
    let timestamp := toString now_millis
    let sign ← create_signature timestamp sec
    pure ((url.appendQueryPair "timestamp" timestamp).appendQueryPair "sign" sign)

/-- Rust `str::trim_end_matches('/')`: remove every trailing slash. -/
def trimEndSlashes (s : String) : String :=
  String.mk ((s.data.reverse.dropWhile fun c => c = '/').reverse)

/-- Rust `str::trim`: drop whitespace from both ends (the whitespace
characters exercised here are the ASCII ones recognized by
`Char.isWhitespace`). -/
def rustTrim (s : String) : String :=
  String.mk (((s.data.dropWhile Char.isWhitespace).reverse.dropWhile Char.isWhitespace).reverse)

/-- `normalize_base_url` from `util/url.rs`, with `url::Url::parse` supplied
as the oracle `parse` (`none` models a parse error): reject non-hierarchical
addresses and any query or fragment, then strip trailing slashes from the
path (an all-slash or root path stays `/`). -/
def normalize_base_url (parse : String → Option Url) (value : String) : Except Error Url :=
  let raw := rustTrim value
  match parse raw with
  | none => .error (.InvalidConfig ("Invalid base_url `" ++ raw ++ "`"))
  | some url =>
    if url.cannot_be_a_base then .error (.InvalidConfig "base_url must be hierarchical")
    else if url.query.isSome || url.fragment.isSome then
      .error (.InvalidConfig "base_url must not contain query or fragment")
    else if url.path ≠ "/" then
      let path := trimEndSlashes url.path
      if path = "" then .ok { url with path := "/" } else .ok { url with path := path }
    else .ok url

/-! ## Collaborator oracles at concrete inputs

These record the outputs of the external `url` and `serde_json` parsers at
the specific inputs used in concrete statements below, so that those
statements are closed and computable. -/

/-- Output of `url::Url::parse` at the concrete addresses used below: all
parse as hierarchical https addresses; a `?x=1` suffix becomes the query
`x=1`; trailing slashes stay part of the path (the WHATWG parser keeps empty
path segments); a bare authority gets the root path. -/
def urlParseOracle : String → Option Url := fun s =>
  if s = "https://example.com/api?x=1" then
    some ⟨"https", "example.com", false, "/api", some "x=1", none⟩
  else if s = "https://example.com/api/" then
    some ⟨"https", "example.com", false, "/api/", none, none⟩
  else if s = "https://example.com/api//" then
    some ⟨"https", "example.com", false, "/api//", none, none⟩
  else if s = "https://oapi.dingtalk.com" then
    some ⟨"https", "oapi.dingtalk.com", false, "/", none, none⟩
  else none

/-- Output of `serde_json::from_str::<StandardApiResponse>` at the concrete
bodies used below: both decode with their `errcode`/`errmsg` fields (extra
JSON fields are ignored by the deserializer). -/
def jsonDecodeOracle : List Nat → Option StandardApiResponse := fun body =>
  if body = strBytes "\x7b\"errcode\":310000,\"errmsg\":\"invalid\"\x7d" then
    some ⟨some 310000, some "invalid"⟩
  else if body = strBytes "\x7b\"errcode\":1,\"errmsg\":\"x\",\"a\":\"secret€€€€€€€€€€€€\"\x7d" then
    some ⟨some 1, some "x"⟩
  else none

/-! ## Claim theorems -/

/-- C1: storing a token and reading it back with no time elapsed returns it
exactly when the refresh margin is below the effective TTL, where the TTL is
`max expires_in 30` for positive `expires_in` and 7200 otherwise; in
particular a positive `expires_in` below the 30-second floor with a margin at
or above the floor yields nothing, and `expires_in = 60` with margin 0 yields
the stored token. -/
theorem token_cache_store_get (tok : String) (e : Option Int) (m now : Nat) :
    ((((AccessTokenCache.new m).store now tok e).get now) =
      if m < normalize_token_ttl e then some tok else none)
    ∧ (∀ v : Int, 0 < v → normalize_token_ttl (some v) = max v.toNat 30)
    ∧ (∀ v : Int, v ≤ 0 → normalize_token_ttl (some v) = 7200)
    ∧ (normalize_token_ttl none = 7200)
    ∧ (∀ v : Int, 0 < v → v < 30 → 30 ≤ m →
        (((AccessTokenCache.new m).store now tok (some v)).get now) = none)
    ∧ ((((AccessTokenCache.new 0).store now tok (some 60)).get now) = some tok) := by
  refine ⟨?_, ?_, ?_, ?_, ?_, ?_⟩
  · simp [AccessTokenCache.new, AccessTokenCache.store, AccessTokenCache.get,
      Nat.add_lt_add_iff_left]
  · intro v hv
    simp [normalize_token_ttl, hv, MIN_ACCESS_TOKEN_TTL]
  · intro v hv
    simp [normalize_token_ttl, DEFAULT_ACCESS_TOKEN_TTL]
    omega
  · rfl
  · intro v hv1 hv2 hm
    have httl : normalize_token_ttl (some v) = 30 := by
      simp [normalize_token_ttl, hv1, MIN_ACCESS_TOKEN_TTL]
      omega
    simp [AccessTokenCache.new, AccessTokenCache.store, AccessTokenCache.get, httl]
    omega
  · simp [AccessTokenCache.new, AccessTokenCache.store, AccessTokenCache.get,
      normalize_token_ttl, MIN_ACCESS_TOKEN_TTL]

/-- C1 witness: the two concrete cache scenarios (the unit-test vectors). -/
theorem token_cache_store_get_witness :
    ((((AccessTokenCache.new 30).store 0 "t" (some 1)).get 0) = none)
    ∧ ((((AccessTokenCache.new 0).store 7 "t" (some 60)).get 7) = some "t") :=
  ⟨(token_cache_store_get "t" (some 1) 30 0).2.2.2.2.1 1 (by decide) (by decide) (by decide),
   (token_cache_store_get "t" (some 60) 0 7).2.2.2.2.2⟩

/-- C2: retryability — rate limits are always retryable; a transport error
returns exactly its flag, and that flag (as computed from a `reqx` failure)
is set exactly for the five transient transport conditions or for an
`HttpStatus` failure whose status is 429 or in 500..599; an API error is
retryable exactly for business codes 130101 and 130102; every other error
kind is not retryable. -/
theorem is_retryable_classification :
    (∀ e ra, (Error.RateLimited e ra).is_retryable = true)
    ∧ (∀ t, (Error.Transport t).is_retryable = t.retryable)
    ∧ (∀ src : ReqxError, reqx_retryable src = true ↔
        ((src.code = .Timeout ∨ src.code = .DeadlineExceeded ∨ src.code = .Transport ∨
          src.code = .RetryBudgetExhausted ∨ src.code = .CircuitOpen) ∨
        (src.code = .HttpStatus ∧ ∃ s, src.status_code = some s ∧
          (s = 429 ∨ (500 ≤ s ∧ s ≤ 599)))))
    ∧ (∀ code msg rid snip, ((Error.Api code msg rid snip).is_retryable = true ↔
        (code = 130101 ∨ code = 130102)))
    ∧ (∀ e, (Error.Auth e).is_retryable = false)
    ∧ (∀ e, (Error.NotFound e).is_retryable = false)
    ∧ (∀ e, (Error.Conflict e).is_retryable = false)
    ∧ (∀ msg, (Error.Serialization msg).is_retryable = false)
    ∧ (∀ msg, (Error.Timestamp msg).is_retryable = false)
    ∧ ((Error.Signature).is_retryable = false)
    ∧ (∀ msg, (Error.InvalidConfig msg).is_retryable = false) := by
  refine ⟨fun _ _ => rfl, fun _ => rfl, ?_, ?_, fun _ => rfl, fun _ => rfl, fun _ => rfl,
    fun _ => rfl, fun _ => rfl, rfl, fun _ => rfl⟩
  · rintro ⟨code, status, rid, ra, disp⟩
    cases code <;> cases status <;> simp [reqx_retryable]
  · intro code msg rid snip
    simp [Error.is_retryable]

/-- C2 witness: a 503 `HttpStatus` transport failure is flagged retryable
and business code 130101 is retryable. -/
theorem is_retryable_classification_witness :
    reqx_retryable ⟨.HttpStatus, some 503, none, none, ""⟩ = true
    ∧ (Error.Api 130101 "" none none).is_retryable = true :=
  ⟨(is_retryable_classification.2.2.1 ⟨.HttpStatus, some 503, none, none, ""⟩).mpr
      (Or.inr ⟨rfl, 503, rfl, Or.inr (by decide)⟩),
   (is_retryable_classification.2.2.2.1 130101 "" none none).mpr (Or.inl rfl)⟩

/-- C3: conversion of a transport failure classifies by status — 401/403 to
`Auth`, 404 to `NotFound`, 409/412 to `Conflict`, 429 to `RateLimited` with
the upstream retry-after hint, any other status to `Transport` carrying the
raw status, the display message and the retryability flag; no status at all
yields `Transport`. -/
theorem error_from_reqx_classification (src : ReqxError) :
    (∀ s, src.status_code = some s →
      (((s = 401 ∨ s = 403) → error_from_reqx src = .Auth ⟨s, none, src.request_id, none⟩)
      ∧ (s = 404 → error_from_reqx src = .NotFound ⟨s, none, src.request_id, none⟩)
      ∧ ((s = 409 ∨ s = 412) → error_from_reqx src = .Conflict ⟨s, none, src.request_id, none⟩)
      ∧ (s = 429 →
          error_from_reqx src = .RateLimited ⟨s, none, src.request_id, none⟩ src.retry_after)
      ∧ (s ≠ 401 → s ≠ 403 → s ≠ 404 → s ≠ 409 → s ≠ 412 → s ≠ 429 →
          error_from_reqx src = .Transport ⟨some s, some src.display, src.request_id, none,
            src.retry_after, reqx_retryable src⟩)))
    ∧ (src.status_code = none →
        error_from_reqx src = .Transport ⟨none, some src.display, src.request_id, none,
          src.retry_after, reqx_retryable src⟩) := by
  obtain ⟨code, status, rid, ra, disp⟩ := src
  constructor
  · intro s hs
    simp only at hs
    subst hs
    refine ⟨?_, ?_, ?_, ?_, ?_⟩
    · rintro (rfl | rfl) <;> rfl
    · rintro rfl; rfl
    · rintro (rfl | rfl) <;> rfl
    · rintro rfl; rfl
    · intro h1 h2 h3 h4 h5 h6
      simp only [error_from_reqx]
      rw [if_neg (by omega), if_neg (by omega), if_neg (by omega), if_neg (by omega)]
  · intro hs
    simp only at hs
    subst hs
    rfl

/-- C3 witness: a 404 failure converts to `NotFound` and a 502 failure to a
retryable `Transport` error. -/
theorem error_from_reqx_classification_witness :
    error_from_reqx ⟨.HttpStatus, some 404, some "rid", none, "boom"⟩ =
      .NotFound ⟨404, none, some "rid", none⟩
    ∧ error_from_reqx ⟨.HttpStatus, some 502, none, some 2, "bad gateway"⟩ =
      .Transport ⟨some 502, some "bad gateway", none, none, some 2,
        reqx_retryable ⟨.HttpStatus, some 502, none, some 2, "bad gateway"⟩⟩ :=
  ⟨((error_from_reqx_classification ⟨.HttpStatus, some 404, some "rid", none, "boom"⟩).1
      404 rfl).2.1 rfl,
   ((error_from_reqx_classification ⟨.HttpStatus, some 502, none, some 2, "bad gateway"⟩).1
      502 rfl).2.2.2.2 (by decide) (by decide) (by decide) (by decide) (by decide) (by decide)⟩

set_option maxRecDepth 10000 in
/-- C5: the webhook signature at the regression vector
(`timestamp = "1700000000000"`, `secret = "secret"`) is exactly the recorded
string, and in general the signature is the deterministic composition of
HMAC-SHA256 over `"{timestamp}\n{secret}"` keyed by the secret, base64
encoding and percent-encoding. -/
theorem create_signature_regression :
    create_signature "1700000000000" "secret" =
      .ok "OuzzJR5%2BxZ4%2FEYwqtNt6sMYZQMTa%2FHEGvc9miJe7XzY%3D"
    ∧ (∀ timestamp secret : String,
        create_signature timestamp secret =
          .ok (urlencodingEncode (String.mk (base64Encode
            (hmac_sha256 (strBytes secret) (strBytes (timestamp ++ "\n" ++ secret))))))) := by
  constructor
  · have h : urlencodingEncode (String.mk (base64Encode (hmac_sha256 (strBytes "secret")
        (strBytes ("1700000000000" ++ "\n" ++ "secret"))))) =
        "OuzzJR5%2BxZ4%2FEYwqtNt6sMYZQMTa%2FHEGvc9miJe7XzY%3D" := by decide
    exact congrArg Except.ok h
  · intro timestamp secret
    rfl

/-! ## Helper lemmas: characters, UTF-8 and form-urlencoding round trips -/

theorem charToNat_ofNat {n : Nat} (h : n.isValidChar) : (Char.ofNat n).toNat = n := by
  simp only [Char.ofNat, dif_pos h, Char.ofNatAux, Char.toNat, UInt32.toNat]
  rfl

theorem char_toNat_lt (c : Char) : c.toNat < 1114112 := by
  have h := c.valid
  show c.val.toNat < 1114112
  rcases h with h | ⟨_, h⟩ <;> omega

theorem char_alnum_ranges (c : Char) (h : c.isAlphanum = true) :
    (48 ≤ c.toNat ∧ c.toNat ≤ 57) ∨ (65 ≤ c.toNat ∧ c.toNat ≤ 90) ∨
      (97 ≤ c.toNat ∧ c.toNat ≤ 122) := by
  simp only [Char.isAlphanum, Char.isAlpha, Char.isUpper, Char.isLower, Char.isDigit,
    Bool.or_eq_true, Bool.and_eq_true, decide_eq_true_eq, ge_iff_le] at h
  rcases h with (⟨h1, h2⟩ | ⟨h1, h2⟩) | ⟨h1, h2⟩
  · exact Or.inr (Or.inl ⟨UInt32.le_toNat_of_le (by norm_num) h1,
      UInt32.toNat_le_of_le (by norm_num) h2⟩)
  · exact Or.inr (Or.inr ⟨UInt32.le_toNat_of_le (by norm_num) h1,
      UInt32.toNat_le_of_le (by norm_num) h2⟩)
  · exact Or.inl ⟨UInt32.le_toNat_of_le (by norm_num) h1,
      UInt32.toNat_le_of_le (by norm_num) h2⟩

theorem utf8_decode_loop_encode (c : Char) (bs : List Nat) :
    utf8DecodeLoop (utf8EncodeCharM c ++ bs) 0 0 = c :: utf8DecodeLoop bs 0 0 := by
  have hlt := char_toNat_lt c
  have hofn : Char.ofNat c.toNat = c := Char.ofNat_toNat c
  rcases Nat.lt_or_ge c.toNat 128 with h1 | h1
  · rw [show utf8EncodeCharM c = [c.toNat] from by
      simp only [utf8EncodeCharM]
      rw [if_pos h1]]
    rw [List.cons_append, List.nil_append, utf8DecodeLoop, if_pos h1, hofn]
  · rcases Nat.lt_or_ge c.toNat 2048 with h2 | h2
    · rw [show utf8EncodeCharM c = [192 + c.toNat / 64, 128 + c.toNat % 64] from by
        simp only [utf8EncodeCharM]
        rw [if_neg (by omega), if_pos h2]]
      rw [List.cons_append, List.cons_append, List.nil_append, utf8DecodeLoop]
      rw [if_neg (by omega), if_neg (by omega), if_pos (by omega)]
      rw [utf8DecodeLoop]
      rw [show (192 + c.toNat / 64 - 192) * 64 + (128 + c.toNat % 64 - 128) = c.toNat from by
        omega, hofn]
    · rcases Nat.lt_or_ge c.toNat 65536 with h3 | h3
      · rw [show utf8EncodeCharM c =
            [224 + c.toNat / 4096, 128 + c.toNat / 64 % 64, 128 + c.toNat % 64] from by
          simp only [utf8EncodeCharM]
          rw [if_neg (by omega), if_neg (by omega), if_pos h3]]
        rw [List.cons_append, List.cons_append, List.cons_append, List.nil_append,
          utf8DecodeLoop]
        rw [if_neg (by omega), if_neg (by omega), if_neg (by omega), if_pos (by omega)]
        rw [utf8DecodeLoop, utf8DecodeLoop]
        rw [show ((224 + c.toNat / 4096 - 224) * 64 + (128 + c.toNat / 64 % 64 - 128)) * 64 +
          (128 + c.toNat % 64 - 128) = c.toNat from by omega, hofn]
      · rw [show utf8EncodeCharM c = [240 + c.toNat / 262144, 128 + c.toNat / 4096 % 64,
            128 + c.toNat / 64 % 64, 128 + c.toNat % 64] from by
          simp only [utf8EncodeCharM]
          rw [if_neg (by omega), if_neg (by omega), if_neg (by omega)]]
        rw [List.cons_append, List.cons_append, List.cons_append, List.cons_append,
          List.nil_append, utf8DecodeLoop]
        rw [if_neg (by omega), if_neg (by omega), if_neg (by omega), if_neg (by omega)]
        rw [utf8DecodeLoop, utf8DecodeLoop, utf8DecodeLoop]
        rw [show (((240 + c.toNat / 262144 - 240) * 64 + (128 + c.toNat / 4096 % 64 - 128)) *
          64 + (128 + c.toNat / 64 % 64 - 128)) * 64 + (128 + c.toNat % 64 - 128) = c.toNat
          from by omega, hofn]

theorem utf8_decode_encode (c : Char) (bs : List Nat) :
    utf8DecodeChars (utf8EncodeCharM c ++ bs) = c :: utf8DecodeChars bs :=
  utf8_decode_loop_encode c bs

theorem utf8DecodeChars_flatMap (l : List Char) :
    utf8DecodeChars (l.flatMap utf8EncodeCharM) = l := by
  induction l with
  | nil => rfl
  | cons c t ih => rw [List.flatMap_cons, utf8_decode_encode, ih]

theorem utf8EncodeCharM_lt (c : Char) : ∀ b ∈ utf8EncodeCharM c, b < 256 := by
  have hlt := char_toNat_lt c
  intro b hb
  by_cases h1 : c.toNat < 128
  · simp [utf8EncodeCharM, h1] at hb
    omega
  · by_cases h2 : c.toNat < 2048
    · simp [utf8EncodeCharM, h1, h2] at hb
      rcases hb with rfl | rfl <;> omega
    · by_cases h3 : c.toNat < 65536
      · simp [utf8EncodeCharM, h1, h2, h3] at hb
        rcases hb with rfl | rfl | rfl <;> omega
      · simp [utf8EncodeCharM, h1, h2, h3] at hb
        rcases hb with rfl | rfl | rfl | rfl <;> omega

theorem hexVal_hexUpperDigit : ∀ n < 16, hexVal (hexUpperDigit n) = n := by decide

theorem pctDecode_pctEncodeBytes (l : List Nat) (hl : ∀ b ∈ l, b < 256) (rest : List Char) :
    pctDecodeBytes (l.flatMap pctEncodeByte ++ rest) = l ++ pctDecodeBytes rest := by
  induction l with
  | nil => simp
  | cons b t ih =>
    have hb : b < 256 := hl b (List.mem_cons_self b t)
    rw [List.flatMap_cons, List.append_assoc, pctEncodeByte]
    rw [List.cons_append, List.cons_append, List.cons_append, pctDecodeBytes]
    rw [if_neg (by decide), if_pos rfl]
    show (hexVal (hexUpperDigit (b / 16)) * 16 + hexVal (hexUpperDigit (b % 16))) ::
      pctDecodeBytes (t.flatMap pctEncodeByte ++ rest) = (b :: t) ++ pctDecodeBytes rest
    rw [hexVal_hexUpperDigit _ (by omega), hexVal_hexUpperDigit _ (by omega)]
    rw [ih (fun x hx => hl x (List.mem_cons_of_mem b hx))]
    rw [List.cons_append]
    congr 1
    omega

theorem formSafeChar_vals (c : Char) (h : formSafeChar c = true) :
    c.toNat < 128 ∧ c.toNat ≠ 43 ∧ c.toNat ≠ 37 ∧ c.toNat ≠ 38 ∧ c.toNat ≠ 61 := by
  simp only [formSafeChar, Bool.or_eq_true, decide_eq_true_eq] at h
  rcases h with (((ha | rfl) | rfl) | rfl) | rfl
  · rcases char_alnum_ranges c ha with ⟨h1, h2⟩ | ⟨h1, h2⟩ | ⟨h1, h2⟩ <;>
      exact ⟨by omega, by omega, by omega, by omega, by omega⟩
  all_goals exact ⟨by decide, by decide, by decide, by decide, by decide⟩

theorem pctDecodeBytes_plus (rest : List Char) :
    pctDecodeBytes ('+' :: rest) = 32 :: pctDecodeBytes rest := by
  conv_lhs => rw [pctDecodeBytes.eq_def]
  simp only [if_true, eq_self_iff_true]

theorem pctDecodeBytes_other (c : Char) (rest : List Char) (h1 : c ≠ '+') (h2 : c ≠ '%') :
    pctDecodeBytes (c :: rest) = c.toNat :: pctDecodeBytes rest := by
  conv_lhs => rw [pctDecodeBytes.eq_def]
  simp only []
  rw [if_neg h1, if_neg h2]

theorem pctDecode_formEncodeChar (c : Char) (rest : List Char) :
    pctDecodeBytes (formEncodeChar c ++ rest) = utf8EncodeCharM c ++ pctDecodeBytes rest := by
  by_cases hsp : c = ' '
  · subst hsp
    rw [show formEncodeChar ' ' = ['+'] from rfl, List.cons_append, List.nil_append]
    rw [pctDecodeBytes_plus]
    rfl
  · by_cases hsafe : formSafeChar c = true
    · obtain ⟨hlt, h43, h37, _, _⟩ := formSafeChar_vals c hsafe
      rw [show formEncodeChar c = [c] from by
        simp only [formEncodeChar]
        rw [if_neg hsp, if_pos hsafe]]
      rw [List.cons_append, List.nil_append,
        pctDecodeBytes_other c rest (fun hEq => h43 (by rw [hEq]; decide))
          (fun hEq => h37 (by rw [hEq]; decide))]
      rw [show utf8EncodeCharM c = [c.toNat] from by
        simp only [utf8EncodeCharM]
        rw [if_pos hlt]]
      rfl
    · rw [show formEncodeChar c = (utf8EncodeCharM c).flatMap pctEncodeByte from by
        simp only [formEncodeChar]
        rw [if_neg hsp, if_neg hsafe]]
      exact pctDecode_pctEncodeBytes _ (utf8EncodeCharM_lt c) rest

theorem pctDecode_formEncode_data (l : List Char) (rest : List Char) :
    pctDecodeBytes (l.flatMap formEncodeChar ++ rest) =
      l.flatMap utf8EncodeCharM ++ pctDecodeBytes rest := by
  induction l with
  | nil => simp
  | cons c t ih =>
    rw [List.flatMap_cons, List.append_assoc, pctDecode_formEncodeChar, List.flatMap_cons,
      List.append_assoc, ih]

theorem formDecode_formEncode (s : String) : formDecodeChars (formEncode s).data = s := by
  show String.mk (utf8DecodeChars (pctDecodeBytes (formEncode s).data)) = s
  rw [show (formEncode s).data = s.data.flatMap formEncodeChar from rfl]
  rw [show s.data.flatMap formEncodeChar = s.data.flatMap formEncodeChar ++ [] from
    (List.append_nil _).symm]
  rw [pctDecode_formEncode_data]
  rw [show pctDecodeBytes [] = [] from rfl, List.append_nil, utf8DecodeChars_flatMap]

theorem splitOnSep_not_mem (sep : Char) (l : List Char) (h : sep ∉ l) :
    splitOnSep sep l = [l] := by
  induction l with
  | nil => rfl
  | cons c t ih =>
    have hcs : ¬(c = sep) := fun hEq => h (by rw [hEq]; exact List.mem_cons_self sep t)
    rw [splitOnSep, if_neg hcs, ih (fun hm => h (List.mem_cons_of_mem c hm))]

theorem splitOnSep_append (sep : Char) (l1 l2 : List Char) (h : sep ∉ l1) :
    splitOnSep sep (l1 ++ sep :: l2) = l1 :: splitOnSep sep l2 := by
  induction l1 with
  | nil =>
    rw [List.nil_append, splitOnSep, if_pos rfl]
  | cons c t ih =>
    have hcs : ¬(c = sep) := fun hEq => h (by rw [hEq]; exact List.mem_cons_self sep t)
    rw [List.cons_append, splitOnSep, if_neg hcs, ih (fun hm => h (List.mem_cons_of_mem c hm))]

theorem intercalate_single (x : List Char) : List.intercalate ['='] [x] = x := by
  simp [List.intercalate]

theorem splitKV_pair (a b : List Char) (ha : '=' ∉ a) (hb : '=' ∉ b) :
    splitKV (a ++ '=' :: b) = (a, b) := by
  simp only [splitKV]
  rw [splitOnSep_append _ _ _ ha, splitOnSep_not_mem _ _ hb]
  simp only []
  rw [intercalate_single]

theorem hexUpperDigit_ne : ∀ n < 16, hexUpperDigit n ≠ '&' ∧ hexUpperDigit n ≠ '=' := by decide

theorem formEncodeChar_ne_amp_eq (c : Char) : ∀ x ∈ formEncodeChar c, x ≠ '&' ∧ x ≠ '=' := by
  intro x hx
  by_cases hsp : c = ' '
  · subst hsp
    rw [show formEncodeChar ' ' = ['+'] from rfl] at hx
    simp at hx
    subst hx
    exact ⟨by decide, by decide⟩
  · by_cases hsafe : formSafeChar c = true
    · obtain ⟨hlt, _, _, h38, h61⟩ := formSafeChar_vals c hsafe
      rw [show formEncodeChar c = [c] from by
        simp only [formEncodeChar]
        rw [if_neg hsp, if_pos hsafe]] at hx
      simp at hx
      subst hx
      exact ⟨fun hEq => h38 (by rw [hEq]; decide), fun hEq => h61 (by rw [hEq]; decide)⟩
    · rw [show formEncodeChar c = (utf8EncodeCharM c).flatMap pctEncodeByte from by
        simp only [formEncodeChar]
        rw [if_neg hsp, if_neg hsafe]] at hx
      obtain ⟨b, hbmem, hxb⟩ := List.mem_flatMap.mp hx
      have hb := utf8EncodeCharM_lt c b hbmem
      simp only [pctEncodeByte, List.mem_cons, List.not_mem_nil, or_false] at hxb
      rcases hxb with rfl | rfl | rfl
      · exact ⟨by decide, by decide⟩
      · exact hexUpperDigit_ne (b / 16) (by omega)
      · exact hexUpperDigit_ne (b % 16) (by omega)

theorem formEncode_data_ne (s : String) :
    '&' ∉ (formEncode s).data ∧ '=' ∉ (formEncode s).data := by
  rw [show (formEncode s).data = s.data.flatMap formEncodeChar from rfl]
  constructor <;> intro hm <;> obtain ⟨c, _, hx⟩ := List.mem_flatMap.mp hm
  · exact (formEncodeChar_ne_amp_eq c _ hx).1 rfl
  · exact (formEncodeChar_ne_amp_eq c _ hx).2 rfl

theorem string_data_append (a b : String) : (a ++ b).data = a.data ++ b.data := rfl

theorem encoded_pair_data (k v : String) :
    (formEncode k ++ "=" ++ formEncode v).data =
      (formEncode k).data ++ '=' :: (formEncode v).data := by
  rw [string_data_append, string_data_append]
  simp

theorem amp_not_mem_pair (k v : String) :
    '&' ∉ (formEncode k ++ "=" ++ formEncode v).data := by
  rw [encoded_pair_data]
  intro hm
  rcases List.mem_append.mp hm with h | h
  · exact (formEncode_data_ne k).1 h
  · rcases List.mem_cons.mp h with h | h
    · exact absurd h (by decide)
    · exact (formEncode_data_ne v).1 h

theorem parse_encoded_pair (k v : String) :
    ((formDecodeChars (splitKV ((formEncode k ++ "=" ++ formEncode v).data)).1),
      (formDecodeChars (splitKV ((formEncode k ++ "=" ++ formEncode v).data)).2)) = (k, v) := by
  rw [encoded_pair_data, splitKV_pair _ _ (formEncode_data_ne k).2 (formEncode_data_ne v).2]
  rw [formDecode_formEncode, formDecode_formEncode]

theorem parseQueryPairs_one (k v : String) :
    parseQueryPairs (formEncode k ++ "=" ++ formEncode v) = [(k, v)] := by
  unfold parseQueryPairs
  rw [splitOnSep_not_mem _ _ (amp_not_mem_pair k v)]
  simp only [List.map_cons, List.map_nil]
  rw [parse_encoded_pair]

theorem parseQueryPairs_three (k1 v1 k2 v2 k3 v3 : String) :
    parseQueryPairs ((formEncode k1 ++ "=" ++ formEncode v1) ++ "&" ++
        (formEncode k2 ++ "=" ++ formEncode v2) ++ "&" ++
        (formEncode k3 ++ "=" ++ formEncode v3)) = [(k1, v1), (k2, v2), (k3, v3)] := by
  unfold parseQueryPairs
  have hdata : ((formEncode k1 ++ "=" ++ formEncode v1) ++ "&" ++
      (formEncode k2 ++ "=" ++ formEncode v2) ++ "&" ++
      (formEncode k3 ++ "=" ++ formEncode v3)).data =
      (formEncode k1 ++ "=" ++ formEncode v1).data ++
        '&' :: ((formEncode k2 ++ "=" ++ formEncode v2).data ++
          '&' :: (formEncode k3 ++ "=" ++ formEncode v3).data) := by
    simp [string_data_append, List.append_assoc]
  rw [hdata, splitOnSep_append _ _ _ (amp_not_mem_pair k1 v1),
    splitOnSep_append _ _ _ (amp_not_mem_pair k2 v2),
    splitOnSep_not_mem _ _ (amp_not_mem_pair k3 v3)]
  simp only [List.map_cons, List.map_nil]
  rw [parse_encoded_pair, parse_encoded_pair, parse_encoded_pair]

theorem endpoint_url_ok (base : Url) (segs : List String)
    (hb : base.cannot_be_a_base = false) :
    endpoint_url base segs = .ok ⟨base.scheme, base.host, base.cannot_be_a_base,
      (if base.path = "/" then "" else base.path) ++
        String.join (segs.map fun s => "/" ++ encodeSegment s),
      base.query, base.fragment⟩ := by
  simp only [endpoint_url, hb]
  rfl

/-- C6: webhook-URL construction appends exactly `access_token` when no
secret is configured, and exactly `access_token`, `timestamp` and `sign` when
one is; re-parsing the produced query string recovers the token value
unchanged. -/
theorem build_webhook_url_query_params (base : Url) (token : String) (now : Nat)
    (hb : base.cannot_be_a_base = false) (hq : base.query = none) :
    (∃ u, build_webhook_url base token none now = .ok u ∧
      parseQueryPairs (u.query.getD "") = [("access_token", token)])
    ∧ (∀ sec : String, ∃ u sg, build_webhook_url base token (some sec) now = .ok u ∧
      parseQueryPairs (u.query.getD "") =
        [("access_token", token), ("timestamp", toString now), ("sign", sg)]) := by
  constructor
  · refine ⟨⟨base.scheme, base.host, base.cannot_be_a_base,
      (if base.path = "/" then "" else base.path) ++
        String.join (["robot", "send"].map fun s => "/" ++ encodeSegment s),
      some (formEncode "access_token" ++ "=" ++ formEncode token), base.fragment⟩, ?_, ?_⟩
    · simp only [build_webhook_url]
      rw [endpoint_url_ok base _ hb, hq]
      rfl
    · simp only [Option.getD]
      exact parseQueryPairs_one "access_token" token
  · intro sec
    refine ⟨⟨base.scheme, base.host, base.cannot_be_a_base,
      (if base.path = "/" then "" else base.path) ++
        String.join (["robot", "send"].map fun s => "/" ++ encodeSegment s),
      some ((formEncode "access_token" ++ "=" ++ formEncode token) ++ "&" ++
        (formEncode "timestamp" ++ "=" ++ formEncode (toString now)) ++ "&" ++
        (formEncode "sign" ++ "=" ++ formEncode (urlencodingEncode (String.mk (base64Encode
          (hmac_sha256 (strBytes sec) (strBytes (toString now ++ "\n" ++ sec)))))))),
      base.fragment⟩,
      urlencodingEncode (String.mk (base64Encode
        (hmac_sha256 (strBytes sec) (strBytes (toString now ++ "\n" ++ sec))))), ?_, ?_⟩
    · simp only [build_webhook_url]
      rw [endpoint_url_ok base _ hb, hq]
      rfl
    · simp only [Option.getD]
      exact parseQueryPairs_three "access_token" token "timestamp" (toString now) "sign" _

/-- C6 witness: the default webhook base URL with a concrete token, in both
the unsigned and the signed configuration. -/
theorem build_webhook_url_query_params_witness :
    (∃ u, build_webhook_url ⟨"https", "oapi.dingtalk.com", false, "/", none, none⟩
        "token-123" none 1700000000000 = .ok u ∧
      parseQueryPairs (u.query.getD "") = [("access_token", "token-123")])
    ∧ (∀ sec : String, ∃ u sg, build_webhook_url
        ⟨"https", "oapi.dingtalk.com", false, "/", none, none⟩
        "token-123" (some sec) 1700000000000 = .ok u ∧
      parseQueryPairs (u.query.getD "") =
        [("access_token", "token-123"), ("timestamp", toString 1700000000000), ("sign", sg)]) :=
  build_webhook_url_query_params ⟨"https", "oapi.dingtalk.com", false, "/", none, none⟩
    "token-123" 1700000000000 rfl rfl


theorem head_dropWhile_slash (l : List Char) :
    (l.dropWhile (fun c => c = '/')).head? ≠ some '/' := by
  induction l with
  | nil => simp
  | cons c t ih =>
    rw [List.dropWhile_cons]
    by_cases hc : c = '/'
    · simpa [hc] using ih
    · simp [hc]

theorem trimEndSlashes_spec (s : String) :
    (trimEndSlashes s).data.getLast? ≠ some '/'
    ∧ ∃ k, s.data = (trimEndSlashes s).data ++ List.replicate k '/' := by
  constructor
  · show ((s.data.reverse.dropWhile fun c => c = '/').reverse).getLast? ≠ some '/'
    rw [List.getLast?_reverse]
    exact head_dropWhile_slash _
  · refine ⟨(s.data.reverse.takeWhile fun c => c = '/').length, ?_⟩
    show s.data = ((s.data.reverse.dropWhile fun c => c = '/').reverse) ++ _
    have h1 : (s.data.reverse.takeWhile fun c => c = '/') =
        List.replicate (s.data.reverse.takeWhile fun c => c = '/').length '/' := by
      rw [List.eq_replicate_iff]
      exact ⟨rfl, fun b hb => by simpa using List.mem_takeWhile_imp hb⟩
    calc s.data = s.data.reverse.reverse := (List.reverse_reverse _).symm
      _ = ((s.data.reverse.takeWhile fun c => c = '/') ++
            (s.data.reverse.dropWhile fun c => c = '/')).reverse := by
          rw [List.takeWhile_append_dropWhile]
      _ = (s.data.reverse.dropWhile fun c => c = '/').reverse ++
            (s.data.reverse.takeWhile fun c => c = '/').reverse := by
          rw [List.reverse_append]
      _ = _ := by
          rw [h1, List.reverse_replicate]
          simp

/-- C7 counterexample: on `"https://example.com/api//"` (which parses with
path `/api//`) the code strips BOTH trailing slashes, yielding path `/api`,
not the `/api/` that stripping a single trailing slash would give. -/
theorem normalize_base_url_double_slash_counterexample :
    normalize_base_url urlParseOracle "https://example.com/api//" =
      .ok ⟨"https", "example.com", false, "/api", none, none⟩
    ∧ trimEndSlashes "/api//" ≠ "/api/" ∧ ("/api" : String) ≠ "/api/" :=
  ⟨rfl, by decide, by decide⟩

/-- C7 (amended): `normalize_base_url` fails with `InvalidConfig` when the
input does not parse, is not hierarchical, or carries a query or fragment
(for example `"https://example.com/api?x=1"`); an accepted input has ALL its
trailing slashes stripped from the path (not just one) — the stripped path
never ends in a slash and the original path is the stripped path plus some
run of slashes — with an all-slash or root path left as `/`; in particular
`"https://example.com/api/"` yields path `/api`. -/
theorem normalize_base_url_spec (parse : String → Option Url) (value : String) :
    (parse (rustTrim value) = none →
      ∃ m, normalize_base_url parse value = .error (.InvalidConfig m))
    ∧ (∀ u, parse (rustTrim value) = some u →
      ((u.cannot_be_a_base = true →
          ∃ m, normalize_base_url parse value = .error (.InvalidConfig m))
      ∧ ((u.query.isSome = true ∨ u.fragment.isSome = true) → u.cannot_be_a_base = false →
          ∃ m, normalize_base_url parse value = .error (.InvalidConfig m))
      ∧ (u.cannot_be_a_base = false → u.query = none → u.fragment = none →
          normalize_base_url parse value = .ok ⟨u.scheme, u.host, u.cannot_be_a_base,
            (if u.path = "/" then "/"
             else if trimEndSlashes u.path = "" then "/" else trimEndSlashes u.path),
            u.query, u.fragment⟩)))
    ∧ (∀ s : String, (trimEndSlashes s).data.getLast? ≠ some '/'
        ∧ ∃ k, s.data = (trimEndSlashes s).data ++ List.replicate k '/')
    ∧ normalize_base_url urlParseOracle "https://example.com/api/" =
        .ok ⟨"https", "example.com", false, "/api", none, none⟩
    ∧ (∃ m, normalize_base_url urlParseOracle "https://example.com/api?x=1" =
        .error (.InvalidConfig m)) := by
  refine ⟨?_, ?_, trimEndSlashes_spec, rfl, ⟨_, rfl⟩⟩
  · intro h
    exact ⟨"Invalid base_url `" ++ rustTrim value ++ "`", by simp [normalize_base_url, h]⟩
  · intro u hu
    obtain ⟨sc, ho, cb, pa, qu, fr⟩ := u
    refine ⟨?_, ?_, ?_⟩
    · intro hcb
      simp only at hcb
      exact ⟨"base_url must be hierarchical", by simp [normalize_base_url, hu, hcb]⟩
    · rintro (hqf | hqf) hcb
      · simp only at hqf hcb
        exact ⟨"base_url must not contain query or fragment",
          by simp [normalize_base_url, hu, hcb, hqf]⟩
      · simp only at hqf hcb
        exact ⟨"base_url must not contain query or fragment",
          by simp [normalize_base_url, hu, hcb, hqf]⟩
    · intro hcb hq hf
      simp only at hcb hq hf
      subst hcb hq hf
      by_cases hp : pa = "/"
      · subst hp
        simp [normalize_base_url, hu]
      · simp only [normalize_base_url, hu, if_neg hp]
        by_cases he : trimEndSlashes pa = ""
        · simp [he, hp]
        · simp [he, hp]

/-- C7 witness: the concrete accepted input `"https://example.com/api/"`,
through the amended theorem. -/
theorem normalize_base_url_spec_witness :
    normalize_base_url urlParseOracle "https://example.com/api/" =
      .ok ⟨"https", "example.com", false,
        (if ("/api/" : String) = "/" then "/"
         else if trimEndSlashes "/api/" = "" then "/" else trimEndSlashes "/api/"),
        none, none⟩ :=
  (((normalize_base_url_spec urlParseOracle "https://example.com/api/").2.1
    ⟨"https", "example.com", false, "/api/", none, none⟩ rfl).2.2) rfl rfl rfl

theorem prev_boundary_le (s : List Nat) (i : Nat) : prev_boundary s i ≤ i := by
  induction i with
  | zero => exact Nat.le_refl 0
  | succ n ih =>
    rw [prev_boundary]
    by_cases hb : isCharBoundaryByte s (n + 1) = true
    · rw [if_pos hb]
    · rw [if_neg hb]
      omega

theorem prev_boundary_isBoundary (s : List Nat) (i : Nat) :
    isCharBoundaryByte s (prev_boundary s i) = true := by
  induction i with
  | zero => rfl
  | succ n ih =>
    rw [prev_boundary]
    by_cases hb : isCharBoundaryByte s (n + 1) = true
    · rw [if_pos hb]
      exact hb
    · rw [if_neg hb]
      exact ih

theorem prev_boundary_maximal (s : List Nat) (i : Nat) :
    ∀ j, prev_boundary s i < j → j ≤ i → isCharBoundaryByte s j = false := by
  induction i with
  | zero => intro j h1 h2; omega
  | succ n ih =>
    intro j h1 h2
    rw [prev_boundary] at h1
    by_cases hb : isCharBoundaryByte s (n + 1) = true
    · rw [if_pos hb] at h1
      omega
    · rw [if_neg hb] at h1
      rcases Nat.lt_or_ge j (n + 1) with hj | hj
      · exact ih j h1 (by omega)
      · have : j = n + 1 := by omega
        subst this
        exact Bool.not_eq_true _ ▸ (by simpa using hb)

/-- C9: `truncate_snippet` returns short inputs unchanged; a long input is
cut at the largest character boundary not above the byte budget — never
inside a multi-byte character — and the truncation marker is appended. -/
theorem truncate_snippet_spec (s : List Nat) (n : Nat) :
    (s.length ≤ n → truncate_snippet s n = s)
    ∧ (n < s.length →
        truncate_snippet s n = s.take (prev_boundary s n) ++ truncatedMarker
        ∧ prev_boundary s n ≤ n
        ∧ isCharBoundaryByte s (prev_boundary s n) = true
        ∧ (∀ j, prev_boundary s n < j → j ≤ n → isCharBoundaryByte s j = false)) := by
  constructor
  · intro h
    rw [truncate_snippet, if_pos h]
  · intro h
    refine ⟨?_, prev_boundary_le s n, prev_boundary_isBoundary s n, prev_boundary_maximal s n⟩
    rw [truncate_snippet, if_neg (by omega)]

/-- C9 witness: a budget of 4 bytes on `"a€€€€"` cuts at boundary 4 (after
the first euro sign), never splitting a character. -/
theorem truncate_snippet_spec_witness :
    truncate_snippet (strBytes "a€€€€") 4 =
      (strBytes "a€€€€").take (prev_boundary (strBytes "a€€€€") 4) ++ truncatedMarker
    ∧ prev_boundary (strBytes "a€€€€") 4 ≤ 4
    ∧ isCharBoundaryByte (strBytes "a€€€€") (prev_boundary (strBytes "a€€€€") 4) = true :=
  have h := (truncate_snippet_spec (strBytes "a€€€€") 4).2 (by decide)
  ⟨h.1, h.2.1, h.2.2.1⟩

theorem utf8DecodeLoop_ascii (s : List Nat) (h : ∀ b ∈ s, b < 128) :
    utf8DecodeLoop s 0 0 = s.map Char.ofNat := by
  induction s with
  | nil => rfl
  | cons b t ih =>
    have hb : b < 128 := h b (List.mem_cons_self b t)
    rw [utf8DecodeLoop, if_pos hb, List.map_cons,
      ih (fun x hx => h x (List.mem_cons_of_mem b hx))]

theorem lower_encode_ascii (l : List Nat) (h : ∀ b ∈ l, b < 128) :
    ((l.map Char.ofNat).flatMap charLowercase).flatMap utf8EncodeCharM =
      l.map (fun b => if 65 ≤ b ∧ b ≤ 90 then b + 32 else b) := by
  induction l with
  | nil => rfl
  | cons b t ih =>
    have hb : b < 128 := h b (List.mem_cons_self b t)
    have hofn : (Char.ofNat b).toNat = b := charToNat_ofNat (Or.inl (by omega))
    have hlow : charLowercase (Char.ofNat b) =
        [Char.ofNat (if 65 ≤ b ∧ b ≤ 90 then b + 32 else b)] := by
      simp only [charLowercase, hofn]
      by_cases h65 : 65 ≤ b ∧ b ≤ 90
      · rw [if_neg (by omega), if_pos h65, if_pos h65]
      · rw [if_neg (by omega), if_neg h65, if_neg h65]
    have hv : (if 65 ≤ b ∧ b ≤ 90 then b + 32 else b) < 128 := by split <;> omega
    have henc : utf8EncodeCharM (Char.ofNat (if 65 ≤ b ∧ b ≤ 90 then b + 32 else b)) =
        [if 65 ≤ b ∧ b ≤ 90 then b + 32 else b] := by
      have hofn2 : (Char.ofNat (if 65 ≤ b ∧ b ≤ 90 then b + 32 else b)).toNat =
          (if 65 ≤ b ∧ b ≤ 90 then b + 32 else b) := charToNat_ofNat (Or.inl (by omega))
      simp only [utf8EncodeCharM, hofn2]
      rw [if_pos hv]
    rw [List.map_cons, List.flatMap_cons, List.flatMap_append, hlow, List.map_cons,
      List.flatMap_cons, List.flatMap_nil, List.append_nil, henc,
      ih (fun x hx => h x (List.mem_cons_of_mem b hx)), List.cons_append, List.nil_append]

theorem rustToLowercase_ascii (s : List Nat) (h : ∀ b ∈ s, b < 128) :
    rustToLowercase s = s.map (fun b => if 65 ≤ b ∧ b ≤ 90 then b + 32 else b) := by
  show ((utf8DecodeChars s).flatMap charLowercase).flatMap utf8EncodeCharM = _
  rw [show utf8DecodeChars s = s.map Char.ofNat from utf8DecodeLoop_ascii s h]
  exact lower_encode_ascii s h

theorem rustToLowercase_ascii_length (s : List Nat) (h : ∀ b ∈ s, b < 128) :
    (rustToLowercase s).length = s.length := by
  rw [rustToLowercase_ascii s h, List.length_map]

theorem isCharBoundaryByte_ascii (s : List Nat) (h : ∀ b ∈ s, b < 128) (i : Nat)
    (hi : i ≤ s.length) : isCharBoundaryByte s i = true := by
  unfold isCharBoundaryByte
  by_cases h0 : i = 0
  · rw [if_pos h0]
  · rw [if_neg h0]
    rcases Nat.lt_or_ge i s.length with hlt | hge
    · rw [List.getElem?_eq_getElem hlt]
      have hb : s[i] < 128 := h _ (s.getElem_mem hlt)
      simp
      omega
    · have hi2 : i = s.length := by omega
      rw [List.getElem?_eq_none (by omega)]
      simp [hi2]

theorem find_sub_le (h n : List Nat) (i : Nat) (hf : find_sub h n = some i) :
    i + n.length ≤ h.length := by
  induction h generalizing i with
  | nil =>
    rw [find_sub] at hf
    by_cases hp : n.isPrefixOf ([] : List Nat) = true
    · rw [if_pos hp] at hf
      injection hf with hf
      have := (List.isPrefixOf_iff_prefix.mp hp).length_le
      simp only [List.length_nil] at this ⊢
      omega
    · rw [if_neg hp] at hf
      exact absurd hf (by simp)
  | cons b t ih =>
    rw [find_sub] at hf
    by_cases hp : n.isPrefixOf (b :: t) = true
    · rw [if_pos hp] at hf
      injection hf with hf
      have := (List.isPrefixOf_iff_prefix.mp hp).length_le
      omega
    · rw [if_neg hp] at hf
      cases hmap : find_sub t n with
      | none => rw [hmap] at hf; exact absurd hf (by simp)
      | some j =>
        rw [hmap] at hf
        simp at hf
        have := ih j hmap
        simp
        omega

theorem find_sub_first (h n : List Nat) (i : Nat) (hf : find_sub h n = some i) :
    n.isPrefixOf (h.drop i) = true ∧ ∀ j < i, n.isPrefixOf (h.drop j) = false := by
  induction h generalizing i with
  | nil =>
    rw [find_sub] at hf
    by_cases hp : n.isPrefixOf ([] : List Nat) = true
    · rw [if_pos hp] at hf
      injection hf with hf
      subst hf
      exact ⟨hp, fun j hj => absurd hj (by omega)⟩
    · rw [if_neg hp] at hf
      exact absurd hf (by simp)
  | cons b t ih =>
    rw [find_sub] at hf
    by_cases hp : n.isPrefixOf (b :: t) = true
    · rw [if_pos hp] at hf
      injection hf with hf
      subst hf
      exact ⟨hp, fun j hj => absurd hj (by omega)⟩
    · rw [if_neg hp] at hf
      cases hmap : find_sub t n with
      | none => rw [hmap] at hf; exact absurd hf (by simp)
      | some j =>
        rw [hmap] at hf
        simp at hf
        subst hf
        obtain ⟨ih1, ih2⟩ := ih j hmap
        refine ⟨by simpa using ih1, ?_⟩
        intro j' hj'
        cases j' with
        | zero => simpa using (Bool.not_eq_true _ ▸ (by simpa using hp))
        | succ j'' =>
          rw [List.drop_succ_cons]
          exact ih2 j'' (by omega)

theorem redact_step_not_found (s key : List Nat)
    (h : find_sub (rustToLowercase s) key = none) : redact_step s key = some s := by
  simp [redact_step, h]

theorem redact_step_found (s key : List Nat) (i : Nat)
    (hfind : find_sub (rustToLowercase s) key = some i)
    (hstart : i + key.length < min (i + key.length + 32) s.length)
    (hb1 : isCharBoundaryByte s (i + key.length) = true)
    (hb2 : isCharBoundaryByte s (min (i + key.length + 32) s.length) = true) :
    redact_step s key = some (s.take (i + key.length) ++ redactMarker ++
      s.drop (min (i + key.length + 32) s.length)) := by
  simp only [redact_step, hfind]
  rw [if_pos hstart]
  simp only [replace_range]
  rw [if_pos (by rw [hb1, hb2]; simp; omega)]

theorem redact_step_found_at_end (s key : List Nat) (i : Nat)
    (hfind : find_sub (rustToLowercase s) key = some i)
    (hge : ¬(i + key.length < min (i + key.length + 32) s.length)) :
    redact_step s key = some s := by
  simp only [redact_step, hfind]
  rw [if_neg hge]

theorem redact_step_ascii (s key : List Nat) (h : ∀ b ∈ s, b < 128) :
    ∃ out, redact_step s key = some out ∧ (∀ b ∈ out, b < 128) := by
  cases hfind : find_sub (rustToLowercase s) key with
  | none => exact ⟨s, redact_step_not_found s key hfind, h⟩
  | some i =>
    have hbound : i + key.length ≤ s.length := by
      have := find_sub_le _ _ i hfind
      rwa [rustToLowercase_ascii_length s h] at this
    by_cases hlt : i + key.length < min (i + key.length + 32) s.length
    · refine ⟨_, redact_step_found s key i hfind hlt
        (isCharBoundaryByte_ascii s h _ hbound)
        (isCharBoundaryByte_ascii s h _ (by omega)), ?_⟩
      intro b hb
      simp only [List.mem_append] at hb
      rcases hb with (hb | hb) | hb
      · exact h b (List.mem_of_mem_take hb)
      · revert hb
        revert b
        decide
      · exact h b (List.mem_of_mem_drop hb)
    · exact ⟨s, redact_step_found_at_end s key i hfind hlt, h⟩

theorem redact_fold_ascii (keys : List (List Nat)) (s : List Nat) (h : ∀ b ∈ s, b < 128) :
    ∃ out, List.foldlM redact_step s keys = some out ∧ (∀ b ∈ out, b < 128) := by
  induction keys generalizing s with
  | nil => exact ⟨s, rfl, h⟩
  | cons k kt ih =>
    obtain ⟨out1, ho1, ha1⟩ := redact_step_ascii s k h
    obtain ⟨out2, ho2, ha2⟩ := ih out1 ha1
    refine ⟨out2, ?_, ha2⟩
    rw [List.foldlM_cons, ho1]
    simpa using ho2

/-- C8 counterexample: `redact_text` is not total — on the input
`"secret€€€€€€€€€€€€"` the computed window end (6 + 32 = 38) falls inside a
multi-byte character, `replace_range` panics, and no redacted text is
returned at all. -/
theorem redact_text_counterexample :
    redact_text (strBytes "secret€€€€€€€€€€€€") = none := by decide

/-- C8 (amended): for every ASCII input text `redact_text` behaves as
claimed — it is total; the search really finds the first occurrence of the
key in the lowercased text; a found key with a non-empty window gets exactly
the window `[start, min (start+32) len)` after it overwritten with
`"=<redacted>"`, text outside the window kept intact (the window ends are
automatically character boundaries for ASCII); a key that does not occur
leaves the text unchanged; and on the spec's example the text after
`access_token` is masked with the prefix kept intact. The ASCII restriction
is the region where the model of `str::to_lowercase` provably coincides with
the Rust function; on non-ASCII input the program can instead panic on a
window that splits a multi-byte character — see the counterexample. -/
theorem redact_text_spec :
    (∀ s : List Nat, (∀ b ∈ s, b < 128) →
      ∃ out, redact_text s = some out ∧ (∀ b ∈ out, b < 128))
    ∧ (∀ s key i, (∀ b ∈ s, b < 128) → find_sub (rustToLowercase s) key = some i →
        (key.isPrefixOf ((rustToLowercase s).drop i) = true
          ∧ ∀ j < i, key.isPrefixOf ((rustToLowercase s).drop j) = false))
    ∧ (∀ s key i, (∀ b ∈ s, b < 128) → find_sub (rustToLowercase s) key = some i →
        i + key.length < min (i + key.length + 32) s.length →
        redact_step s key = some (s.take (i + key.length) ++ redactMarker ++
          s.drop (min (i + key.length + 32) s.length)))
    ∧ (∀ s key, (∀ b ∈ s, b < 128) → find_sub (rustToLowercase s) key = none →
        redact_step s key = some s)
    ∧ redact_text (strBytes "\x7b\"access_token\":\"abcdef123456\"\x7d") =
        some (strBytes "\x7b\"access_token=<redacted>") := by
  refine ⟨redact_fold_ascii SENSITIVE_KEYS, ?_, ?_, ?_, by decide⟩
  · intro s key i _ hfind
    exact find_sub_first _ _ i hfind
  · intro s key i hascii hfind hlt
    have hbound : i + key.length ≤ s.length := by
      have := find_sub_le _ _ i hfind
      rwa [rustToLowercase_ascii_length s hascii] at this
    exact redact_step_found s key i hfind hlt
      (isCharBoundaryByte_ascii s hascii _ hbound)
      (isCharBoundaryByte_ascii s hascii _ (by omega))
  · intro s key _ hfind
    exact redact_step_not_found s key hfind

/-- C8 witness: the `token` masking step on the spec's (all-ASCII) example
body, with window `[14, 31)` replaced by the marker and the bytes before and
after the window intact. -/
theorem redact_text_spec_witness :
    redact_step (strBytes "\x7b\"access_token\":\"abcdef123456\"\x7d") (strBytes "token") =
      some ((strBytes "\x7b\"access_token\":\"abcdef123456\"\x7d").take 14 ++ redactMarker ++
        (strBytes "\x7b\"access_token\":\"abcdef123456\"\x7d").drop 31) :=
  redact_text_spec.2.2.1 (strBytes "\x7b\"access_token\":\"abcdef123456\"\x7d")
    (strBytes "token") 9 (by decide) (by decide) (by decide)

/-- C10: `redact_text` is not total — on `"token€€€€€€€€€€€€"` the window
end 5 + 32 = 37 is not a character boundary (it falls on the last byte of a
euro sign), so the Rust `replace_range` call panics; the model returns
`none`. -/
theorem redact_text_panics_on_multibyte :
    redact_text (strBytes "token€€€€€€€€€€€€") = none
    ∧ isCharBoundaryByte (strBytes "token€€€€€€€€€€€€") 37 = false := by decide

/-- C4 counterexample: a body that decodes with a non-zero `errcode` but
whose snippet redaction panics (the masking window after `secret` splits a
multi-byte character): no `Api` error is returned — the call panics
(modelled `none`). -/
theorem validate_standard_api_response_counterexample :
    validate_standard_api_response jsonDecodeOracle
      (strBytes "\x7b\"errcode\":1,\"errmsg\":\"x\",\"a\":\"secret€€€€€€€€€€€€\"\x7d")
      ⟨true, 4096⟩ = none := rfl

/-- C4 (amended): a body decoding with non-zero `errcode` yields the `Api`
error with that code, the `errmsg` (or the fixed default), and the snippet
produced by `body_snippet_for_error` — whenever that snippet computation
completes (it panics when redaction would split a multi-byte character);
the snippet is absent when capture is disabled and equals
`redact_text (truncate_snippet body max_bytes)` when enabled; `errcode`
zero or absent, or an undecodable body, yield success; and the spec's
example body yields exactly code 310000, message `invalid` and the original
body as snippet (absent when capture is disabled). -/
theorem validate_standard_api_response_spec :
    (∀ (decode : List Nat → Option StandardApiResponse) (body : List Nat)
        (config : BodySnippetConfig) (r : StandardApiResponse) (c : Int),
      decode body = some r → r.errcode = some c → c ≠ 0 →
      validate_standard_api_response decode body config =
        (body_snippet_for_error body config).map fun snippet =>
          .error (api_error c (r.errmsg.getD "unknown dingtalk api error") none snippet))
    ∧ (∀ body config, config.enabled = false → body_snippet_for_error body config = some none)
    ∧ (∀ body config, config.enabled = true → body_snippet_for_error body config =
        (redact_text (truncate_snippet body config.max_bytes)).map some)
    ∧ (∀ (decode : List Nat → Option StandardApiResponse) body config
        (r : StandardApiResponse),
        decode body = some r → (r.errcode = some 0 ∨ r.errcode = none) →
        validate_standard_api_response decode body config = some (.ok ()))
    ∧ (∀ (decode : List Nat → Option StandardApiResponse) body config,
        decode body = none →
        validate_standard_api_response decode body config = some (.ok ()))
    ∧ validate_standard_api_response jsonDecodeOracle
        (strBytes "\x7b\"errcode\":310000,\"errmsg\":\"invalid\"\x7d") ⟨true, 4096⟩ =
        some (.error (.Api 310000 "invalid" none
          (some (strBytes "\x7b\"errcode\":310000,\"errmsg\":\"invalid\"\x7d"))))
    ∧ validate_standard_api_response jsonDecodeOracle
        (strBytes "\x7b\"errcode\":310000,\"errmsg\":\"invalid\"\x7d") ⟨false, 4096⟩ =
        some (.error (.Api 310000 "invalid" none none)) := by
  refine ⟨?_, ?_, ?_, ?_, ?_, rfl, rfl⟩
  · intro decode body config r c hdec herr hne
    simp [validate_standard_api_response, hdec, herr, hne]
  · intro body config hdis
    simp [body_snippet_for_error, hdis]
  · intro body config hen
    simp [body_snippet_for_error, hen]
  · intro decode body config r hdec herr
    rcases herr with herr | herr <;> simp [validate_standard_api_response, hdec, herr]
  · intro decode body config hdec
    simp [validate_standard_api_response, hdec]

/-- C4 witness: the spec's example body through the general branch of the
amended theorem. -/
theorem validate_standard_api_response_spec_witness :
    validate_standard_api_response jsonDecodeOracle
      (strBytes "\x7b\"errcode\":310000,\"errmsg\":\"invalid\"\x7d") ⟨true, 4096⟩ =
      (body_snippet_for_error (strBytes "\x7b\"errcode\":310000,\"errmsg\":\"invalid\"\x7d")
          ⟨true, 4096⟩).map fun snippet =>
        .error (api_error 310000 ((some "invalid").getD "unknown dingtalk api error")
          none snippet) :=
  validate_standard_api_response_spec.1 jsonDecodeOracle
    (strBytes "\x7b\"errcode\":310000,\"errmsg\":\"invalid\"\x7d") ⟨true, 4096⟩
    ⟨some 310000, some "invalid"⟩ 310000 (by decide) rfl (by decide)
